import Mathlib

/-!
Verification of the ORF-finding core of `Scripts/xbbtools/nextorf.py`.

The Python source is shallowly embedded below.  Sequences are `List Char`
(the upper-cased nucleotide text), codons are `List Char`, and the genetic
code is passed in as two lists of codons (`startc`, `stopc`), mirroring
`self.table.start_codons` / `self.table.stop_codons`, which the script
consumes as provided data.  Python integers are `ℤ` where the script can
produce negative values (CDS start/stop arithmetic), `ℕ` where it cannot
(string indices produced by `range`).  Python floor division `//` is
`Int.fdiv`; Python slices are modelled by `pySlice` with full negative-index
and clamping semantics.  Floating point percentages in `Gc`/`Gc2` are
modelled over `ℚ`; the only claim about them (permutation invariance,
raising on a zero denominator) is insensitive to rounding of the quotient.
-/

namespace Nextorf

/-- A codon boundary as produced by `GetOrfCoordinates`: the Python triple
`(i + 1, kind, codon)` with `kind = 1` for a start codon and `kind = 0` for
a stop codon. -/
structure Boundary where
  pos : ℕ
  kind : ℕ
  codon : List Char
deriving DecidableEq

/-- A CDS record as appended by `GetCDS`:
`(start_site, stop, length, s, strand * f)`. -/
structure CDSRec where
  start : ℤ
  stop : ℤ
  length : ℤ
  subseq : List Char
  tag : ℤ
deriving DecidableEq

/-- `seq[i : i + 3]` for a natural index `i`, as used in the scanners. -/
def codonAt (seq : List Char) (i : ℕ) : List Char :=
  (seq.drop i).take 3

/-- The index list of Python `range(0 + frame, n - n % 3, 3)` from
`GetOrfCoordinates` (frame offset `f0 ∈ {0,1,2}`, `n` the sequence
length): `(m - f0 + 2) / 3` elements `f0, f0 + 3, f0 + 6, …` where
`m = n - n % 3`. -/
def scannedIndices (f0 n : ℕ) : List ℕ :=
  (List.range ((n - n % 3 - f0 + 2) / 3)).map (fun k => f0 + 3 * k)

/-- One iteration of the inner loop of `GetOrfCoordinates`:
`codon = seq[i:i+3]`; append `(i+1, 1, codon)` if it is a start codon,
`(i+1, 0, codon)` if it is a stop codon, nothing otherwise. -/
def classify (startc stopc : List (List Char)) (seq : List Char) (i : ℕ) :
    Option Boundary :=
  let codon := codonAt seq i
  if codon ∈ startc then some ⟨i + 1, 1, codon⟩
  else if codon ∈ stopc then some ⟨i + 1, 0, codon⟩
  else none

/-- The boundary list `GetOrfCoordinates` builds for the frame with offset
`f0` (the Python function returns the three lists `f0 = 0, 1, 2` together;
we parametrise by the offset). -/
def GetOrfCoordinates (startc stopc : List (List Char)) (seq : List Char)
    (f0 : ℕ) : List Boundary :=
  (scannedIndices f0 seq.length).filterMap (classify startc stopc seq)

/-- The frame list actually traversed by `GetCDS`: the scanner output with
the sentinel `(self.length, 0, "XXX")` appended (`frame.append(...)`).
`self.length` equals the length of the scanned sequence at both call
sites (`self.seq` and its reverse complement). -/
def frameBoundaries (startc stopc : List (List Char)) (seq : List Char)
    (f0 : ℕ) : List Boundary :=
  GetOrfCoordinates startc stopc seq f0 ++ [⟨seq.length, 0, ['X', 'X', 'X']⟩]

/-- Python slice `s[a : b]` for integer (possibly negative) endpoints. -/
def pySlice (s : List Char) (a b : ℤ) : List Char :=
  let L : ℤ := s.length
  let a' := if a < 0 then max (L + a) 0 else min a L
  let b' := if b < 0 then max (L + b) 0 else min b L
  (s.take b'.toNat).drop a'.toNat

/-- The windowing done in `ReadFile`: `s[start:stop]` when `stop > 0`,
else `s[start:]`. -/
def sliceWindow (s : List Char) (start stop : ℤ) : List Char :=
  if stop > 0 then pySlice s start stop else pySlice s start s.length

/-- The per-frame loop body of `GetCDS`, annotated: each emitted CDS record
is paired with the boundary that closed it (the pair's second component is
a verification annotation; the script keeps only the record, see
`frameCDS`).  State `s` is `start_site`; `f` is the 1-based frame number.

Mirrors, per boundary `(pos, codon_type, codon)`:
`START`: open if `start_site == 0`.  `STOP` with `start_site == 0`: skip.
Otherwise `stop = pos + 2`, `length = stop - start_site + 1`; if `length`
is within bounds, shift `start_site` by `f - 1` when
`nostart == "1" and start_site == 1`, truncate
`stop = start_site + 3 * ((stop - 1 - start_site) // 3)` when
`codon == "XXX"`, slice `s = seq[start_site - 1 : stop]`, append the
record, and reset `start_site` to `0` (or to `stop + 1` under `nostart`);
on rejection reset the same way with the unadjusted `stop`. -/
def runFrameA (nostart : Bool) (minl maxl strand : ℤ) (seq : List Char)
    (f : ℤ) : ℤ → List Boundary → List (CDSRec × Boundary)
  | _, [] => []
  | s, b :: rest =>
    if b.kind = 1 then
      if s = 0 then runFrameA nostart minl maxl strand seq f (b.pos : ℤ) rest
      else runFrameA nostart minl maxl strand seq f s rest
    else if b.kind = 0 then
      if s = 0 then runFrameA nostart minl maxl strand seq f 0 rest
      else
        let stop : ℤ := (b.pos : ℤ) + 2
        let len : ℤ := stop - s + 1
        if minl ≤ len ∧ len ≤ maxl then
          let s' : ℤ := if nostart ∧ s = 1 then s + f - 1 else s
          let stop' : ℤ :=
            if b.codon = ['X', 'X', 'X'] then s' + 3 * Int.fdiv (stop - 1 - s') 3
            else stop
          (⟨s', stop', len, pySlice seq (s' - 1) stop', strand * f⟩, b) ::
            runFrameA nostart minl maxl strand seq f
              (if nostart then stop' + 1 else 0) rest
        else
          runFrameA nostart minl maxl strand seq f
            (if nostart then stop + 1 else 0) rest
    else
      runFrameA nostart minl maxl strand seq f s rest

/-- The records-with-closing-boundary of one frame of `GetCDS`:
`start_site` starts at `0`, or at `1` under `nostart`. -/
def frameCDSA (startc stopc : List (List Char)) (nostart : Bool)
    (minl maxl strand : ℤ) (seq : List Char) (f0 : ℕ) :
    List (CDSRec × Boundary) :=
  runFrameA nostart minl maxl strand seq ((f0 : ℤ) + 1)
    (if nostart then 1 else 0) (frameBoundaries startc stopc seq f0)

/-- The CDS records of one frame, exactly as the script collects them. -/
def frameCDS (startc stopc : List (List Char)) (nostart : Bool)
    (minl maxl strand : ℤ) (seq : List Char) (f0 : ℕ) : List CDSRec :=
  (frameCDSA startc stopc nostart minl maxl strand seq f0).map Prod.fst

/-- `GetCDS(seq, strand)`: the three frames' records concatenated in frame
order `f = 1, 2, 3`. -/
def GetCDS (startc stopc : List (List Char)) (nostart : Bool)
    (minl maxl strand : ℤ) (seq : List Char) : List CDSRec :=
  frameCDS startc stopc nostart minl maxl strand seq 0 ++
    frameCDS startc stopc nostart minl maxl strand seq 1 ++
      frameCDS startc stopc nostart minl maxl strand seq 2

/-- `round(x, 1)` on an exact rational (rounding mode is irrelevant to the
properties proved here). -/
def round1 (q : ℚ) : ℚ := ((round (q * 10) : ℤ) : ℚ) / 10

/-- `Gc(seq)`: overall GC percentage; `0` when `G` and `C` are absent. -/
def Gc (seq : List Char) : ℚ :=
  let a := seq.count 'A'
  let t := seq.count 'T'
  let g := seq.count 'G'
  let c := seq.count 'C'
  let gc := g + c
  if gc = 0 then 0
  else round1 ((gc : ℚ) * 100 / ((a : ℚ) + (t : ℚ) + (gc : ℚ)))

/-- Number of iterations of `range(0, length, 3)` in `Gc2`. -/
def numCodons (L : ℕ) : ℕ := (L + 2) / 3

/-- Symbol at codon position `pos` of the `k`-th codon of `Gc2`, after the
padding `codon += "  "` for a short final codon. -/
def codonCharAt (seq : List Char) (k pos : ℕ) : Char :=
  (codonAt seq (3 * k)).getD pos ' '

/-- `d[nt][pos]` after the tally loop of `Gc2`. -/
def posCount (seq : List Char) (nt : Char) (pos : ℕ) : ℕ :=
  ((List.range (numCodons seq.length)).filter
    (fun k => codonCharAt seq k pos = nt)).length

/-- The per-position denominator `n = d["G"][i] + d["C"][i] + d["T"][i] +
d["A"][i]` of `Gc2`. -/
def posDen (seq : List Char) (pos : ℕ) : ℕ :=
  posCount seq 'G' pos + posCount seq 'C' pos +
    posCount seq 'T' pos + posCount seq 'A' pos

/-- `Gc2(seq)` as the tuple `(gcall, gc[0], gc[1], gc[2])`.  The Python
`try/except KeyError` cannot fire (all four keys are always present), and
it does not catch `ZeroDivisionError`: a zero denominator at position `i`
aborts the call, modelled as `none` (positions are reached in order
`0, 1, 2`; the final `gcall` division is then over a positive `nall`). -/
def Gc2 (seq : List Char) : Option (ℚ × ℚ × ℚ × ℚ) :=
  if posDen seq 0 = 0 then none
  else if posDen seq 1 = 0 then none
  else if posDen seq 2 = 0 then none
  else
    let gcAt : ℕ → ℚ := fun pos =>
      ((posCount seq 'G' pos + posCount seq 'C' pos : ℕ) : ℚ) * 100 /
        ((posDen seq pos : ℕ) : ℚ)
    let gcall : ℚ :=
      100 * ((posCount seq 'G' 0 + posCount seq 'C' 0 +
              posCount seq 'G' 1 + posCount seq 'C' 1 +
              posCount seq 'G' 2 + posCount seq 'C' 2 : ℕ) : ℚ) /
        ((posDen seq 0 + posDen seq 1 + posDen seq 2 : ℕ) : ℚ)
    some (gcall, gcAt 0, gcAt 1, gcAt 2)

/-- Start codons of the standard table, as used for concrete runs. -/
def stdStart : List (List Char) := [['A', 'T', 'G']]

/-- Stop codons of the standard table, as used for concrete runs. -/
def stdStop : List (List Char) :=
  [['T', 'A', 'A'], ['T', 'A', 'G'], ['T', 'G', 'A']]

/-- Concrete sequences used in counterexamples and witnesses. -/
def seqStd : List Char := "ATGAAATAG".toList

/-- A sequence with a start codon and no stop codon before sequence end. -/
def seqOpen : List Char := "ATGAAAAAA".toList

/-- A sequence with a frame-2 stop codon, for the `nostart` shift case. -/
def seqShift : List Char := "ATAGAA".toList

theorem mem_scannedIndices {f0 n i : ℕ} (h : i ∈ scannedIndices f0 n) :
    ∃ k, i = f0 + 3 * k := by
  simp only [scannedIndices, List.mem_map, List.mem_range] at h
  obtain ⟨k, -, rfl⟩ := h
  exact ⟨k, rfl⟩

theorem classify_eq_some {sc tc : List (List Char)} {seq : List Char}
    {i : ℕ} {b : Boundary} (h : classify sc tc seq i = some b) :
    b.pos = i + 1 ∧ b.codon = codonAt seq i ∧
      (b.codon ∈ sc ∨ b.codon ∈ tc) := by
  simp only [classify] at h
  split_ifs at h with h1 h2
  · cases h; exact ⟨rfl, rfl, Or.inl h1⟩
  · cases h; exact ⟨rfl, rfl, Or.inr h2⟩

theorem mem_coords {sc tc : List (List Char)} {seq : List Char} {f0 : ℕ}
    {b : Boundary} (h : b ∈ GetOrfCoordinates sc tc seq f0) :
    ∃ i ∈ scannedIndices f0 seq.length, classify sc tc seq i = some b := by
  simpa [GetOrfCoordinates, List.mem_filterMap] using h

theorem coords_pos_mod3 {sc tc : List (List Char)} {seq : List Char}
    {f0 : ℕ} {b : Boundary} (h : b ∈ GetOrfCoordinates sc tc seq f0) :
    b.pos % 3 = (f0 + 1) % 3 := by
  obtain ⟨i, hi, hc⟩ := mem_coords h
  obtain ⟨k, rfl⟩ := mem_scannedIndices hi
  obtain ⟨hpos, -, -⟩ := classify_eq_some hc
  omega

theorem codonAt_length (seq : List Char) (i : ℕ) :
    (codonAt seq i).length = min 3 (seq.length - i) := by
  simp [codonAt]

/-- With length-3 codon tables, every recorded boundary sits on a complete
codon: its start index `i = pos - 1` satisfies `i + 3 ≤ n`. -/
theorem coords_complete_codon {sc tc : List (List Char)} {seq : List Char}
    {f0 : ℕ} {b : Boundary}
    (h3s : ∀ c ∈ sc, c.length = 3) (h3t : ∀ c ∈ tc, c.length = 3)
    (h : b ∈ GetOrfCoordinates sc tc seq f0) :
    (b.pos - 1) + 3 ≤ seq.length ∧ ∃ k, b.pos = f0 + 3 * k + 1 := by
  obtain ⟨i, hi, hc⟩ := mem_coords h
  obtain ⟨k, rfl⟩ := mem_scannedIndices hi
  obtain ⟨hpos, hcod, hmem⟩ := classify_eq_some hc
  have hlen : (b.codon).length = 3 := by
    rcases hmem with hm | hm
    · exact h3s _ hm
    · exact h3t _ hm
  rw [hcod, codonAt_length] at hlen
  constructor
  · omega
  · exact ⟨k, by omega⟩

/-- Every record `runFrameA` ever emits was guarded by the length test. -/
theorem runFrameA_length_bounds (nostart : Bool) (minl maxl strand : ℤ)
    (seq : List Char) (f : ℤ) :
    ∀ (bs : List Boundary) (s : ℤ) (r : CDSRec) (b : Boundary),
      (r, b) ∈ runFrameA nostart minl maxl strand seq f s bs →
      minl ≤ r.length ∧ r.length ≤ maxl := by
  intro bs
  induction bs with
  | nil => intro s r b h; simp [runFrameA] at h
  | cons hd tl ih =>
    intro s r b h
    simp only [runFrameA] at h
    split at h
    · split at h
      · exact ih _ _ _ h
      · exact ih _ _ _ h
    · split at h
      · split at h
        · exact ih _ _ _ h
        · split at h
          · rename_i hguard
            rcases List.mem_cons.mp h with he | hm
            · injection he with he1 he2
              subst he1
              exact hguard
            · exact ih _ _ _ hm
          · exact ih _ _ _ h
      · exact ih _ _ _ h

/-- Claim C3: every CDS record emitted by `GetCDS` has its `length` field
between `minlength` and `maxlength`, both bounds inclusive, for all inputs
and configurations. -/
theorem c3_length_within_bounds (startc stopc : List (List Char))
    (nostart : Bool) (minl maxl strand : ℤ) (seq : List Char) (r : CDSRec)
    (hmem : r ∈ GetCDS startc stopc nostart minl maxl strand seq) :
    minl ≤ r.length ∧ r.length ≤ maxl := by
  have key : ∀ f0 : ℕ,
      r ∈ frameCDS startc stopc nostart minl maxl strand seq f0 →
      minl ≤ r.length ∧ r.length ≤ maxl := by
    intro f0 hf
    obtain ⟨⟨r', b⟩, hm, hr⟩ := List.mem_map.mp hf
    cases hr
    exact runFrameA_length_bounds nostart minl maxl strand seq _ _ _ _ _ hm
  rcases List.mem_append.mp hmem with h | h
  · rcases List.mem_append.mp h with h' | h'
    · exact key 0 h'
    · exact key 1 h'
  · exact key 2 h

/-- Witness for C3 on the scenario sequence `ATGAAATAG`. -/
theorem c3_length_within_bounds_witness :
    (1 : ℤ) ≤ (⟨1, 9, 9, seqStd, 1⟩ : CDSRec).length ∧
      (⟨1, 9, 9, seqStd, 1⟩ : CDSRec).length ≤ 100 :=
  c3_length_within_bounds stdStart stdStop false 1 100 1 seqStd _ (by decide)

/-- Claim C4 (code bug): on the empty subsequence the per-position GC
statistics hit a zero denominator at codon position 0 and the computation
aborts (`ZeroDivisionError`: the `except KeyError` handler cannot catch
it), modelled as `none`, instead of producing a 0% fallback. -/
theorem c4_gc2_empty_raises : Gc2 ([] : List Char) = none := rfl

/-- Claim C1, counterexample: for `ATGAAAAAA` (start codon, no stop codon)
the sentinel-closed record is emitted with `start = 1`, `stop = 10`, so the
emitted span `(stop - start) + 1 = 10` is not a multiple of 3 (the claimed
largest-multiple-of-3 stop would be 9). -/
theorem c1_counterexample :
    (⟨1, 10, 11, seqOpen, 1⟩ : CDSRec) ∈
        GetCDS stdStart stdStop false 1 100 1 seqOpen ∧
      ¬ ((10 : ℤ) - 1 + 1) % 3 = 0 := by decide

/-- Claim C2, counterexample: with `ignore_start` enabled, the frame-2
record closed by the true stop codon `TAG` at position 2 is emitted with
`start = 2` (shifted by `f - 1` after `length` was computed), `stop = 4`,
`length = 4`, so `length ≠ stop - start + 1` and `length % 3 ≠ 0`. -/
theorem c2_counterexample :
    ((⟨2, 4, 4, ['T', 'A', 'G'], 2⟩ : CDSRec),
        (⟨2, 0, ['T', 'A', 'G']⟩ : Boundary)) ∈
        frameCDSA stdStart stdStop true 1 100 1 seqShift 1 ∧
      (⟨2, 0, ['T', 'A', 'G']⟩ : Boundary).codon ≠ ['X', 'X', 'X'] ∧
      ¬ ((4 : ℤ) = 4 - 2 + 1 ∧ (4 : ℤ) % 3 = 0) := by decide

/-- Claim C5, counterexample: a record `AA` with window `start = 5` slices
to the empty sequence, yet with `ignore_start` enabled and
`minlength = 1 ≤ 2 ≤ maxlength` the scan emits records (three degenerate
ones, one per frame) rather than none. -/
theorem c5_counterexample :
    sliceWindow ("AA".toList) 5 0 = [] ∧
      GetCDS stdStart stdStop true 1 100 1 (sliceWindow ("AA".toList) 5 0) ≠
        [] := by decide

/-- Claim C6, counterexample: for `n = 3`, frame offset `f = 1`, the
scanner iterates index 1 (`range(1, 3, 3)`), although
`1 + 3 > 3 - ((3 - 1) mod 3) = 1`; the codon extracted there is a
2-symbol trailing partial codon. -/
theorem c6_counterexample :
    1 ∈ scannedIndices 1 3 ∧ ¬ (1 + 3 ≤ 3 - (3 - 1) % 3) ∧
      (codonAt ['T', 'A', 'A'] 1).length < 3 := by decide

/-- Claim C7, counterexample: the sentinel appended for the empty frame
list of `AAA` at frame offset 0 has position `3 ≡ 0 (mod 3)`, not
`≡ 0 + 1 (mod 3)`. -/
theorem c7_counterexample :
    (⟨3, 0, ['X', 'X', 'X']⟩ : Boundary) ∈
        frameBoundaries stdStart stdStop ['A', 'A', 'A'] 0 ∧
      ¬ (3 % 3 = (0 + 1) % 3) := by decide

/-- Claim C7 (amended): every boundary produced by the frame scanner
itself (before the sentinel is appended) for frame offset `f0` satisfies
`position ≡ f0 + 1 (mod 3)` (1-based); the appended sentinel has position
`len(S)`, which need not satisfy this. -/
theorem c7_scanner_pos_mod3 (sc tc : List (List Char)) (seq : List Char)
    (f0 : ℕ) (b : Boundary) (hmem : b ∈ GetOrfCoordinates sc tc seq f0) :
    b.pos % 3 = (f0 + 1) % 3 :=
  coords_pos_mod3 hmem

/-- Witness for the amended C7: the `ATG` boundary of `ATGAAATAG`. -/
theorem c7_scanner_pos_mod3_witness :
    (⟨1, 1, ['A', 'T', 'G']⟩ : Boundary).pos % 3 = (0 + 1) % 3 :=
  c7_scanner_pos_mod3 stdStart stdStop seqStd 0 _ (by decide)

/-- Claim C6 (amended): although the scanner's loop bound is
`n - (n mod 3)` and so a trailing partial codon may be extracted and
tested for frames 1 and 2, a partial codon never matches a length-3 codon
of the table, so every *recorded* boundary lies on a complete codon:
its 0-based index `i = pos - 1` satisfies
`i + 3 ≤ n - ((n - f0) mod 3)`. -/
theorem c6_recorded_boundaries_complete (sc tc : List (List Char))
    (h3s : ∀ c ∈ sc, c.length = 3) (h3t : ∀ c ∈ tc, c.length = 3)
    (seq : List Char) (f0 : ℕ) (b : Boundary)
    (hmem : b ∈ GetOrfCoordinates sc tc seq f0) :
    (b.pos - 1) + 3 ≤ seq.length - (seq.length - f0) % 3 := by
  obtain ⟨hfull, k, hk⟩ := coords_complete_codon h3s h3t hmem
  omega

/-- Witness for the amended C6. -/
theorem c6_recorded_boundaries_complete_witness :
    ((⟨1, 1, ['A', 'T', 'G']⟩ : Boundary).pos - 1) + 3 ≤
      seqStd.length - (seqStd.length - 0) % 3 :=
  c6_recorded_boundaries_complete stdStart stdStop (by decide) (by decide)
    seqStd 0 _ (by decide)

/-- Claim C8: every frame list processed by the CDS assembler ends with
the sentinel `(len(S), STOP, "XXX")`; for sequences shorter than one codon
(including the empty sequence) the list is exactly the sentinel alone. -/
theorem c8_sentinel_always_last (startc stopc : List (List Char))
    (seq : List Char) (f0 : ℕ) :
    (frameBoundaries startc stopc seq f0).getLast? =
        some ⟨seq.length, 0, ['X', 'X', 'X']⟩ ∧
      (seq.length < 3 → frameBoundaries startc stopc seq f0 =
        [⟨seq.length, 0, ['X', 'X', 'X']⟩]) := by
  constructor
  · exact List.getLast?_concat _
  · intro hn
    have hidx : scannedIndices f0 seq.length = [] := by
      unfold scannedIndices
      have h0 : (seq.length - seq.length % 3 - f0 + 2) / 3 = 0 := by omega
      rw [h0]
      rfl
    simp [frameBoundaries, GetOrfCoordinates, hidx]

/-- Witness for C8 at a sequence shorter than one codon. -/
theorem c8_sentinel_always_last_witness :
    (frameBoundaries stdStart stdStop ['A'] 0).getLast? =
        some ⟨1, 0, ['X', 'X', 'X']⟩ ∧
      ((['A'] : List Char).length < 3 →
        frameBoundaries stdStart stdStop ['A'] 0 =
          [⟨1, 0, ['X', 'X', 'X']⟩]) :=
  c8_sentinel_always_last stdStart stdStop ['A'] 0

/-- Claim C9: the overall GC percentage only depends on symbol counts, so
it is invariant under permutation of the input. -/
theorem c9_gc_perm_invariant {s1 s2 : List Char} (h : s1.Perm s2) :
    Gc s1 = Gc s2 := by
  simp only [Gc]
  rw [h.count_eq 'A', h.count_eq 'T', h.count_eq 'G', h.count_eq 'C']

/-- Witness for C9 on a transposition. -/
theorem c9_gc_perm_invariant_witness : Gc ['A', 'G'] = Gc ['G', 'A'] :=
  c9_gc_perm_invariant (by decide)

/-- Arithmetic of the `XXX` truncation
`t = start + 3 * ((p + 2 - 1 - start) // 3)`: `t` is the largest value
at most `p + 1` (strictly below the original stop `p + 2`) with `t - start`
divisible by 3, and the adjusted span does not exceed the original. -/
theorem xxx_trunc_props (s p t : ℤ)
    (ht : t = s + 3 * Int.fdiv (p + 2 - 1 - s) 3) :
    t ≤ p + 1 ∧ (t - s) % 3 = 0 ∧
      (∀ v : ℤ, v ≤ p + 1 → (v - s) % 3 = 0 → v ≤ t) ∧
      t - s + 1 ≤ (p + 2) - s + 1 := by
  rw [Int.fdiv_eq_ediv _ (by norm_num)] at ht
  refine ⟨by omega, by omega, fun v hv hm => by omega, by omega⟩

/-- Every record `runFrameA` emits at an `XXX`-codon stop has its stop
recomputed by the truncation formula of line 177 of the script. -/
theorem runFrameA_xxx_stop (nostart : Bool) (minl maxl strand : ℤ)
    (seq : List Char) (f : ℤ) :
    ∀ (bs : List Boundary) (s : ℤ) (r : CDSRec) (b : Boundary),
      (r, b) ∈ runFrameA nostart minl maxl strand seq f s bs →
      b.codon = ['X', 'X', 'X'] →
      r.stop = r.start + 3 * Int.fdiv ((b.pos : ℤ) + 2 - 1 - r.start) 3 := by
  intro bs
  induction bs with
  | nil => intro s r b h; simp [runFrameA] at h
  | cons hd tl ih =>
    intro s r b h hx
    simp only [runFrameA] at h
    split at h
    · split at h
      · exact ih _ _ _ h hx
      · exact ih _ _ _ h hx
    · split at h
      · split at h
        · exact ih _ _ _ h hx
        · split at h
          · rcases List.mem_cons.mp h with he | hm
            · injection he with he1 he2
              subst he1
              subst he2
              simp only [hx, if_pos]
            · exact ih _ _ _ hm hx
          · exact ih _ _ _ h hx
      · exact ih _ _ _ h hx

/-- Claim C1 (amended): a record closed by a stop boundary whose codon
text is `XXX` (the sentinel) is emitted with
`stop = start + 3 * ((original_stop - 1 - start) // 3)` (Python floor
division, `original_stop = position + 2`).  This makes the emitted `stop`
the largest value *strictly below* the original stop with `stop - start`
divisible by 3; the emitted span `(stop - start) + 1` is therefore one
more than a multiple of 3 — not a multiple of 3 — and never exceeds the
original span. -/
theorem c1_truncation_formula (startc stopc : List (List Char))
    (nostart : Bool) (minl maxl strand : ℤ) (seq : List Char) (f0 : ℕ)
    (r : CDSRec) (b : Boundary)
    (hmem : (r, b) ∈ frameCDSA startc stopc nostart minl maxl strand seq f0)
    (hx : b.codon = ['X', 'X', 'X']) :
    r.stop = r.start + 3 * Int.fdiv ((b.pos : ℤ) + 2 - 1 - r.start) 3 ∧
      r.stop ≤ (b.pos : ℤ) + 1 ∧
      (r.stop - r.start) % 3 = 0 ∧
      (∀ v : ℤ, v ≤ (b.pos : ℤ) + 1 → (v - r.start) % 3 = 0 → v ≤ r.stop) ∧
      r.stop - r.start + 1 ≤ ((b.pos : ℤ) + 2) - r.start + 1 := by
  have h1 := runFrameA_xxx_stop nostart minl maxl strand seq _ _ _ _ _ hmem hx
  obtain ⟨h2, h3, h4, h5⟩ := xxx_trunc_props r.start (b.pos : ℤ) r.stop h1
  exact ⟨h1, h2, h3, h4, h5⟩

/-- Witness for the amended C1 on `ATGAAAAAA`: the sentinel-closed record
`(1, 10, 11)` satisfies the truncation formula, `10 = 1 + 3 * (10 / 3)`. -/
theorem c1_truncation_formula_witness :
    (⟨1, 10, 11, seqOpen, 1⟩ : CDSRec).stop =
        (⟨1, 10, 11, seqOpen, 1⟩ : CDSRec).start +
          3 * Int.fdiv (((⟨9, 0, ['X', 'X', 'X']⟩ : Boundary).pos : ℤ) + 2 - 1 -
            (⟨1, 10, 11, seqOpen, 1⟩ : CDSRec).start) 3 ∧
      (⟨1, 10, 11, seqOpen, 1⟩ : CDSRec).stop ≤
        ((⟨9, 0, ['X', 'X', 'X']⟩ : Boundary).pos : ℤ) + 1 ∧
      ((⟨1, 10, 11, seqOpen, 1⟩ : CDSRec).stop -
        (⟨1, 10, 11, seqOpen, 1⟩ : CDSRec).start) % 3 = 0 ∧
      (∀ v : ℤ, v ≤ ((⟨9, 0, ['X', 'X', 'X']⟩ : Boundary).pos : ℤ) + 1 →
        (v - (⟨1, 10, 11, seqOpen, 1⟩ : CDSRec).start) % 3 = 0 →
        v ≤ (⟨1, 10, 11, seqOpen, 1⟩ : CDSRec).stop) ∧
      (⟨1, 10, 11, seqOpen, 1⟩ : CDSRec).stop -
          (⟨1, 10, 11, seqOpen, 1⟩ : CDSRec).start + 1 ≤
        (((⟨9, 0, ['X', 'X', 'X']⟩ : Boundary).pos : ℤ) + 2) -
          (⟨1, 10, 11, seqOpen, 1⟩ : CDSRec).start + 1 :=
  c1_truncation_formula stdStart stdStop false 1 100 1 seqOpen 0 _ _
    (by decide) rfl

/-- With `nostart` disabled, records closed by a non-`XXX` stop boundary
in a frame whose boundary positions are congruent to `F` modulo 3 satisfy
the length invariants.  The hypothesis exempts the sentinel (kind 0,
codon `XXX`). -/
theorem runFrameA_true_stop_len (minl maxl strand : ℤ) (seq : List Char)
    (f F : ℤ) :
    ∀ (bs : List Boundary) (s : ℤ),
      (∀ b ∈ bs, (b.kind = 1 ∨ b.codon ≠ ['X', 'X', 'X']) →
        (b.pos : ℤ) % 3 = F) →
      (s = 0 ∨ s % 3 = F) →
      ∀ r b, (r, b) ∈ runFrameA false minl maxl strand seq f s bs →
        b.codon ≠ ['X', 'X', 'X'] →
        r.length = r.stop - r.start + 1 ∧ r.length % 3 = 0 := by
  intro bs
  induction bs with
  | nil => intro s _ _ r b h; simp [runFrameA] at h
  | cons hd tl ih =>
    intro s hmod hs r b h hx
    have hmod' : ∀ b ∈ tl, (b.kind = 1 ∨ b.codon ≠ ['X', 'X', 'X']) →
        (b.pos : ℤ) % 3 = F :=
      fun b hb => hmod b (List.mem_cons_of_mem _ hb)
    simp only [runFrameA] at h
    split at h
    · rename_i hk1
      split at h
      · refine ih _ hmod' (Or.inr ?_) _ _ h hx
        exact hmod hd (List.mem_cons_self _ _) (Or.inl hk1)
      · exact ih _ hmod' hs _ _ h hx
    · split at h
      · split at h
        · exact ih _ hmod' (Or.inl rfl) _ _ h hx
        · rename_i hk1 hk0 hsne
          split at h
          · rcases List.mem_cons.mp h with he | hm
            · injection he with he1 he2
              subst he1
              have hx' : hd.codon ≠ ['X', 'X', 'X'] := by
                rw [← he2]
                exact hx
              have hsF : s % 3 = F := hs.resolve_left hsne
              have hpF : ((hd.pos : ℕ) : ℤ) % 3 = F :=
                hmod hd (List.mem_cons_self _ _) (Or.inr hx')
              constructor
              · simp only [hx', if_neg, Bool.false_eq_true, false_and,
                  if_false]
              · simp only [Bool.false_eq_true, false_and, if_false]
                omega
            · exact ih _ (fun b hb => hmod' b hb) (Or.inl rfl) _ _
                (by simpa using hm) hx
          · exact ih _ hmod' (Or.inl rfl) _ _ (by simpa using h) hx
      · exact ih _ hmod' hs _ _ h hx

/-- Claim C2 (amended): with `ignore_start` disabled, every CDS record
whose closing boundary is a true stop codon (codon text not `XXX`)
satisfies `length = stop - start + 1` and `length % 3 = 0`, for every
`minlength`/`maxlength`.  (With `ignore_start` enabled the reported start
of a record opened at virtual position 1 is shifted by `f - 1` after
`length` is computed, and both equations can fail — see the
counterexample.) -/
theorem c2_true_stop_length (startc stopc : List (List Char))
    (minl maxl strand : ℤ) (seq : List Char) (f0 : ℕ) (r : CDSRec)
    (b : Boundary)
    (hmem : (r, b) ∈ frameCDSA startc stopc false minl maxl strand seq f0)
    (hx : b.codon ≠ ['X', 'X', 'X']) :
    r.length = r.stop - r.start + 1 ∧ r.length % 3 = 0 := by
  have hmod : ∀ b' ∈ frameBoundaries startc stopc seq f0,
      (b'.kind = 1 ∨ b'.codon ≠ ['X', 'X', 'X']) →
      (b'.pos : ℤ) % 3 = ((f0 : ℤ) + 1) % 3 := by
    intro b' hb' hcase
    rcases List.mem_append.mp hb' with hc | hsent
    · have := coords_pos_mod3 hc
      omega
    · simp only [List.mem_singleton] at hsent
      subst hsent
      rcases hcase with hk | hcod
      · simp at hk
      · simp at hcod
  exact runFrameA_true_stop_len minl maxl strand seq _ _
    (frameBoundaries startc stopc seq f0) _ hmod (Or.inl rfl) r b hmem hx

/-- Witness for the amended C2 on `ATGAAATAG`: the record `(1, 9, 9)`
closed by `TAG` at position 7. -/
theorem c2_true_stop_length_witness :
    (⟨1, 9, 9, seqStd, 1⟩ : CDSRec).length =
        (⟨1, 9, 9, seqStd, 1⟩ : CDSRec).stop -
          (⟨1, 9, 9, seqStd, 1⟩ : CDSRec).start + 1 ∧
      (⟨1, 9, 9, seqStd, 1⟩ : CDSRec).length % 3 = 0 :=
  c2_true_stop_length stdStart stdStop 1 100 1 seqStd 0 _
    ⟨7, 0, ['T', 'A', 'G']⟩ (by decide) (by decide)

/-- With `nostart` disabled, `GetCDS` on the empty sequence emits
nothing: each frame's list is exactly the sentinel, and a stop with no
open start site is skipped. -/
theorem getcds_nil (startc stopc : List (List Char)) (minl maxl strand : ℤ) :
    GetCDS startc stopc false minl maxl strand [] = [] := rfl

/-- A Python slice starting at or beyond the end of the list is empty. -/
theorem pySlice_out_of_range (s : List Char) (a b : ℤ) (h0 : 0 ≤ a)
    (h1 : (s.length : ℤ) ≤ a) : pySlice s a b = [] := by
  simp only [pySlice]
  rw [if_neg (by omega : ¬ a < 0)]
  apply List.drop_eq_nil_of_le
  have hmin : (min a (s.length : ℤ)).toNat = s.length := by omega
  rw [hmin]
  simp [List.length_take]

/-- The `ReadFile` window of a record shorter than the requested start is
the empty sequence, for either sign of the stop option. -/
theorem sliceWindow_out_of_range (s : List Char) (a b : ℤ) (h0 : 0 ≤ a)
    (h1 : (s.length : ℤ) ≤ a) : sliceWindow s a b = [] := by
  unfold sliceWindow
  split
  · exact pySlice_out_of_range s a b h0 h1
  · exact pySlice_out_of_range s a _ h0 h1

/-- Claim C5 (amended): a record shorter than the requested start/stop
window slices to the empty sequence, and scanning it yields zero CDS
records — without failing — for arbitrary `minlength`/`maxlength`,
provided `ignore_start` is disabled.  (With `ignore_start` enabled the
virtual start site pairs with each frame's sentinel and degenerate
records are emitted — see the counterexample.) -/
theorem c5_short_record_empty_scan (startc stopc : List (List Char))
    (minl maxl strand wstart wstop : ℤ) (s : List Char)
    (h0 : 0 ≤ wstart) (h1 : (s.length : ℤ) ≤ wstart) :
    GetCDS startc stopc false minl maxl strand
      (sliceWindow s wstart wstop) = [] := by
  rw [sliceWindow_out_of_range s wstart wstop h0 h1]
  exact getcds_nil startc stopc minl maxl strand

/-- Witness for the amended C5: the record `AA` with window start 5. -/
theorem c5_short_record_empty_scan_witness :
    GetCDS stdStart stdStop false 1 100 1
      (sliceWindow ("AA".toList) 5 0) = [] :=
  c5_short_record_empty_scan stdStart stdStop 1 100 1 5 0 ("AA".toList)
    (by decide) (by decide)

/-- Emitted spans listed left to right: each record starts strictly after
a running lower bound and closes no earlier than it starts, and the next
records start strictly after its stop. -/
def spansOK : ℤ → List CDSRec → Prop
  | _, [] => True
  | prev, r :: rs => prev < r.start ∧ r.start ≤ r.stop ∧ spansOK r.stop rs

/-- `spansOK` yields the ordering and disjointness facts of claim C10. -/
theorem spansOK_props :
    ∀ (l : List CDSRec) (B : ℤ), spansOK B l →
      (∀ r ∈ l, B < r.start ∧ r.start ≤ r.stop) ∧
        List.Pairwise
          (fun r r' : CDSRec => r.start < r'.start ∧ r.stop < r'.start) l := by
  intro l
  induction l with
  | nil => intro B _; exact ⟨by simp, List.Pairwise.nil⟩
  | cons r rs ih =>
    intro B h
    obtain ⟨h1, h2, h3⟩ := h
    obtain ⟨hall, hpw⟩ := ih r.stop h3
    constructor
    · intro x hx
      rcases List.mem_cons.mp hx with rfl | hx'
      · exact ⟨h1, h2⟩
      · obtain ⟨ha, hb⟩ := hall x hx'
        exact ⟨by omega, hb⟩
    · refine List.Pairwise.cons ?_ hpw
      intro x hx
      obtain ⟨ha, hb⟩ := hall x hx
      exact ⟨by omega, ha⟩

/-- With length-3 codon tables, the frame list traversed by `GetCDS` is
strictly increasing in position, any boundary that can open an ORF (kind
1) lies at least 3 past every earlier boundary, and every position is
positive for kind-1 boundaries. -/
theorem frameBoundaries_pairwise (sc tc : List (List Char))
    (h3s : ∀ c ∈ sc, c.length = 3) (h3t : ∀ c ∈ tc, c.length = 3)
    (seq : List Char) (f0 : ℕ) :
    List.Pairwise
      (fun b b' : Boundary => (b.pos : ℤ) < (b'.pos : ℤ) ∧
        (b'.kind = 1 → (b.pos : ℤ) + 3 ≤ (b'.pos : ℤ)))
      (frameBoundaries sc tc seq f0) := by
  unfold frameBoundaries
  rw [List.pairwise_append]
  refine ⟨?_, ?_, ?_⟩
  · unfold GetOrfCoordinates scannedIndices
    rw [List.pairwise_filterMap, List.pairwise_map]
    refine (List.pairwise_lt_range _).imp ?_
    intro k k' hkk b hb b' hb'
    obtain ⟨hp, -, -⟩ := classify_eq_some hb
    obtain ⟨hp', -, -⟩ := classify_eq_some hb'
    constructor
    · have : b.pos < b'.pos := by omega
      exact_mod_cast this
    · intro _
      have : b.pos + 3 ≤ b'.pos := by omega
      exact_mod_cast this
  · simp
  · intro b hb b' hb'
    simp only [List.mem_singleton] at hb'
    subst hb'
    obtain ⟨hfull, k, hk⟩ := coords_complete_codon h3s h3t hb
    constructor
    · have : b.pos < seq.length := by omega
      exact_mod_cast this
    · intro hk1
      simp at hk1

/-- Main invariant for claim C10: with `nostart` disabled, running one
frame over a boundary list that is strictly increasing (and whose
openable boundaries are at distance at least 3 from every earlier
boundary) produces well-ordered pairwise-disjoint spans. -/
theorem runFrameA_spansOK (minl maxl strand : ℤ) (seq : List Char)
    (f : ℤ) :
    ∀ (bs : List Boundary) (B s : ℤ),
      List.Pairwise
        (fun b b' : Boundary => (b.pos : ℤ) < (b'.pos : ℤ) ∧
          (b'.kind = 1 → (b.pos : ℤ) + 3 ≤ (b'.pos : ℤ))) bs →
      (∀ b ∈ bs, b.kind = 1 → B < (b.pos : ℤ)) →
      (s = 0 ∨ (B < s ∧ ∀ b ∈ bs, s < (b.pos : ℤ))) →
      spansOK B
        ((runFrameA false minl maxl strand seq f s bs).map Prod.fst) := by
  intro bs
  induction bs with
  | nil =>
    intro B s _ _ _
    simp only [runFrameA, List.map_nil]
    trivial
  | cons hd tl ih =>
    intro B s hpair hB hs
    rw [List.pairwise_cons] at hpair
    obtain ⟨hhd, hpair'⟩ := hpair
    have hB' : ∀ b ∈ tl, b.kind = 1 → B < (b.pos : ℤ) :=
      fun b hb => hB b (List.mem_cons_of_mem _ hb)
    simp only [runFrameA]
    split
    · rename_i hk1
      split
      · exact ih B (hd.pos : ℤ) hpair' hB'
          (Or.inr ⟨hB hd (List.mem_cons_self _ _) hk1,
            fun b hb => (hhd b hb).1⟩)
      · rename_i hsne
        obtain ⟨hBs, hlt⟩ := hs.resolve_left hsne
        exact ih B s hpair' hB'
          (Or.inr ⟨hBs, fun b hb => hlt b (List.mem_cons_of_mem _ hb)⟩)
    · split
      · split
        · exact ih B 0 hpair' hB' (Or.inl rfl)
        · rename_i hk1 hk0 hsne
          obtain ⟨hBs, hlt⟩ := hs.resolve_left hsne
          have hshd : s < (hd.pos : ℤ) := hlt hd (List.mem_cons_self _ _)
          split
          · rename_i hguard
            simp only [Bool.false_eq_true, false_and, if_false,
              List.map_cons]
            have hstople :
                (if hd.codon = ['X', 'X', 'X'] then
                    s + 3 * Int.fdiv ((hd.pos : ℤ) + 2 - 1 - s) 3
                  else (hd.pos : ℤ) + 2) ≤ (hd.pos : ℤ) + 2 := by
              split
              · rename_i hxxx
                have := Int.fdiv_eq_ediv ((hd.pos : ℤ) + 2 - 1 - s)
                  (by norm_num : (0 : ℤ) ≤ 3)
                omega
              · omega
            have hstopge :
                s ≤ (if hd.codon = ['X', 'X', 'X'] then
                    s + 3 * Int.fdiv ((hd.pos : ℤ) + 2 - 1 - s) 3
                  else (hd.pos : ℤ) + 2) := by
              split
              · rename_i hxxx
                have := Int.fdiv_eq_ediv ((hd.pos : ℤ) + 2 - 1 - s)
                  (by norm_num : (0 : ℤ) ≤ 3)
                omega
              · omega
            refine ⟨hBs, hstopge,
              ih (if hd.codon = ['X', 'X', 'X'] then
                    s + 3 * Int.fdiv ((hd.pos : ℤ) + 2 - 1 - s) 3
                  else (hd.pos : ℤ) + 2) 0 hpair' ?_ (Or.inl rfl)⟩
            intro b hb hbk
            have h3le := (hhd b hb).2 hbk
            omega
          · exact ih B 0 hpair' hB' (Or.inl rfl)
      · rename_i hk1 hk0
        refine ih B s hpair' hB' ?_
        rcases hs with rfl | ⟨hBs, hlt⟩
        · exact Or.inl rfl
        · exact Or.inr ⟨hBs, fun b hb => hlt b (List.mem_cons_of_mem _ hb)⟩

/-- Claim C10: with `ignore_start` disabled, the CDS records emitted for a
single frame are well-formed spans (`start ≤ stop`) appearing in strictly
increasing start order, and their `[start, stop]` spans are pairwise
disjoint (each record's stop lies strictly before the next record's
start).  Requires the genetic-code tables to consist of 3-symbol codons. -/
theorem c10_frame_records_sorted_disjoint (startc stopc : List (List Char))
    (h3s : ∀ c ∈ startc, c.length = 3) (h3t : ∀ c ∈ stopc, c.length = 3)
    (minl maxl strand : ℤ) (seq : List Char) (f0 : ℕ) :
    (∀ r ∈ frameCDS startc stopc false minl maxl strand seq f0,
        r.start ≤ r.stop) ∧
      List.Pairwise
        (fun r r' : CDSRec => r.start < r'.start ∧ r.stop < r'.start)
        (frameCDS startc stopc false minl maxl strand seq f0) := by
  have hB0 : ∀ b ∈ frameBoundaries startc stopc seq f0,
      b.kind = 1 → (0 : ℤ) < (b.pos : ℤ) := by
    intro b hb hbk
    rcases List.mem_append.mp hb with hc | hsent
    · obtain ⟨i, -, hcl⟩ := mem_coords hc
      obtain ⟨hp, -, -⟩ := classify_eq_some hcl
      have : 0 < b.pos := by omega
      exact_mod_cast this
    · simp only [List.mem_singleton] at hsent
      subst hsent
      simp at hbk
  have hso : spansOK 0 (frameCDS startc stopc false minl maxl strand seq f0) :=
    runFrameA_spansOK minl maxl strand seq ((f0 : ℤ) + 1)
      (frameBoundaries startc stopc seq f0) 0 0
      (frameBoundaries_pairwise startc stopc h3s h3t seq f0) hB0 (Or.inl rfl)
  obtain ⟨hall, hpw⟩ := spansOK_props _ 0 hso
  exact ⟨fun r hr => (hall r hr).2, hpw⟩

/-- Witness for C10 on `ATGAAATAG`, frame offset 0. -/
theorem c10_frame_records_sorted_disjoint_witness :
    (∀ r ∈ frameCDS stdStart stdStop false 1 100 1 seqStd 0,
        r.start ≤ r.stop) ∧
      List.Pairwise
        (fun r r' : CDSRec => r.start < r'.start ∧ r.stop < r'.start)
        (frameCDS stdStart stdStop false 1 100 1 seqStd 0) :=
  c10_frame_records_sorted_disjoint stdStart stdStop (by decide) (by decide)
    1 100 1 seqStd 0

end Nextorf
